import Mathlib

/-!
Shallow embedding of the `grep` package of kevin-cantwell/usrbin.

Lines and pattern strings are byte lists (`List Nat`, each element a byte
value 0..255).  The Go `regexp` / `regexp/syntax` machinery is modelled for
the star-free fragment (literal bytes, concatenation, alternation, grouping)
with Go's leftmost-first (Perl preference) match semantics; case folding is
the ASCII fold applied per literal, mirroring `syntax.FoldCase` on this
fragment.
-/

namespace Usrbin

/-- ASCII lower-casing of a byte, the simple fold used by `bytes.EqualFold`
and `syntax.FoldCase` on ASCII letters. -/
def toLowerByte (b : Nat) : Nat :=
  if 65 ≤ b ∧ b ≤ 90 then b + 32 else b

/-- `regexp/syntax.IsWordChar`: ASCII letters, digits and underscore. -/
def isWordChar (b : Nat) : Bool :=
  (65 ≤ b && b ≤ 90) || (97 ≤ b && b ≤ 122) || (48 ≤ b && b ≤ 57) || b == 95

/-- `bytes.EqualFold` restricted to ASCII byte strings. -/
def eqFold (a b : List Nat) : Bool :=
  a.map toLowerByte == b.map toLowerByte

/-- Syntax trees of the supported regular-expression fragment.  A literal
byte carries the fold flag that `syntax.FoldCase` would have attached. -/
inductive Regex where
  | eps : Regex
  | chr (c : Nat) (fold : Bool) : Regex
  | cat (a b : Regex) : Regex
  | alt (a b : Regex) : Regex
deriving DecidableEq, Repr

/-- Does literal `c` (with fold flag `f`) match input byte `b`? -/
def byteMatches (c : Nat) (f : Bool) (b : Nat) : Bool :=
  if f then toLowerByte c == toLowerByte b else c == b

/-- All end positions of matches of `r` starting at offset `i` of `s`, in
backtracking preference order (left alternative first), as Go's
leftmost-first engine would explore them. -/
def ends (r : Regex) (s : List Nat) (i : Nat) : List Nat :=
  match r with
  | .eps => [i]
  | .chr c f =>
      match s.get? i with
      | some b => if byteMatches c f b then [i + 1] else []
      | none => []
  | .cat a b => (ends a s i).flatMap (fun j => ends b s j)
  | .alt a b => ends a s i ++ ends b s i

/-- Search for the leftmost match at or after offset `i`; fuelled loop over
candidate start offsets.  Returns the span `(start, end)` of the
preference-first match at the leftmost matching offset. -/
def findFromF (r : Regex) (s : List Nat) : Nat → Nat → Option (Nat × Nat)
  | 0, _ => none
  | fuel + 1, i =>
      match (ends r s i).head? with
      | some e => some (i, e)
      | none => if i < s.length then findFromF r s fuel (i + 1) else none

/-- Span of the leftmost-first match of `r` in `s` (`regexp.FindIndex`). -/
def findSpan (r : Regex) (s : List Nat) : Option (Nat × Nat) :=
  findFromF r s (s.length + 1) 0

/-- `regexp.Match`: does `r` match anywhere in `s`? -/
def rMatch (r : Regex) (s : List Nat) : Bool :=
  (findSpan r s).isSome

/-- The bytes of span `(i, e)` of `s`. -/
def sliceBytes (s : List Nat) (i e : Nat) : List Nat :=
  (s.drop i).take (e - i)

/-- `regexp.Find`: the bytes of the leftmost-first match (`[]` models Go's
nil result when there is no match). -/
def rFind (r : Regex) (s : List Nat) : List Nat :=
  match findSpan r s with
  | some (i, e) => sliceBytes s i e
  | none => []

/-- `regexp.FindAllIndex(s, -1)`: successive non-overlapping leftmost
matches while the scan position is within the input; after an empty match
the scan advances by one byte, and an empty match starting at the end of
the previous match is skipped (Go's `prevMatchEnd` rule). -/
def findAllF (r : Regex) (s : List Nat) : Nat → Nat → Option Nat → List (Nat × Nat)
  | 0, _, _ => []
  | fuel + 1, p, prev =>
      if s.length < p then []
      else
        match findFromF r s (s.length + 1) p with
        | some (i, e) =>
            if i = e then
              (if prev == some i then [] else [(i, e)])
                ++ findAllF r s fuel (e + 1) (some e)
            else (i, e) :: findAllF r s fuel e (some e)
        | none => []

/-- All non-overlapping match spans of `r` in `s`. -/
def findAllIndex (r : Regex) (s : List Nat) : List (Nat × Nat) :=
  findAllF r s (s.length + 2) 0 none

/-! ## Pattern parsing (`regexp/syntax.Parse` on the supported fragment)

`'|'` (124) is alternation, `'('` (40) / `')'` (41) group; every other byte
is a literal.  `fold` is the `syntax.FoldCase` flag.  A dangling `'('` or a
stray `')'` is a parse error, as in `regexp/syntax`. -/

mutual

def parseConcatF : Nat → Bool → List Nat → Except String (Regex × List Nat)
  | 0, _, _ => .error ("internal: parse fuel exhausted")
  | fuel + 1, fold, s =>
      match s with
      | [] => .ok (.eps, [])
      | 124 :: _ => .ok (.eps, s)
      | 41 :: _ => .ok (.eps, s)
      | 40 :: rest =>
          match parseAltF fuel fold rest with
          | .error e => .error e
          | .ok (r, rest1) =>
              match rest1 with
              | 41 :: rest2 =>
                  match parseConcatF fuel fold rest2 with
                  | .error e => .error e
                  | .ok (r2, rest3) => .ok (.cat r r2, rest3)
              | _ => .error ("missing closing parenthesis")
      | c :: rest =>
          match parseConcatF fuel fold rest with
          | .error e => .error e
          | .ok (r2, rest2) => .ok (.cat (.chr c fold) r2, rest2)

def parseAltF : Nat → Bool → List Nat → Except String (Regex × List Nat)
  | 0, _, _ => .error ("internal: parse fuel exhausted")
  | fuel + 1, fold, s =>
      match parseConcatF fuel fold s with
      | .error e => .error e
      | .ok (r, rest) =>
          match rest with
          | 124 :: rest1 =>
              match parseAltF fuel fold rest1 with
              | .error e => .error e
              | .ok (r2, rest2) => .ok (.alt r r2, rest2)
          | _ => .ok (r, rest)

end

/-- Parse a whole pattern; leftover input means a stray `')'`.  Models
`syntax.Parse` followed by `regexp.Compile` of the printed tree (the round
trip is the identity on this fragment). -/
def parsePattern (fold : Bool) (expr : List Nat) : Except String Regex :=
  match parseAltF (2 * expr.length + 4) fold expr with
  | .error e => .error e
  | .ok (r, []) => .ok r
  | .ok (_, _) => .error ("unexpected closing parenthesis")

/-! ## Line scanning (`bufio.Scanner` with `bufio.ScanLines`) -/

/-- `bufio.dropCR`: strip one trailing carriage return from a token. -/
def dropCR (l : List Nat) : List Nat :=
  if l.getLast? == some 13 then l.dropLast else l

/-- `bufio.MaxScanTokenSize`, the scanner's default maximum token size
(64 KiB); `Exec` and `matchers` never call `Buffer`, so this bound is in
force. -/
def maxScanTokenSize : Nat := 65536

/-- The message of `bufio.ErrTooLong`. -/
def scanErrTooLong : String := "bufio.Scanner: token too long"

/-- Outcome of one `Scan` call: clean end of input (`Scan` false, `Err`
nil), buffer overflow (`Scan` false, `Err` = `ErrTooLong`), or one token
plus the unconsumed input. -/
inductive ScanResult where
  | eof : ScanResult
  | tooLong : ScanResult
  | token (tok rest : List Nat) : ScanResult
deriving DecidableEq, Repr

/-- One `Scan` step of `bufio.Scanner` with `bufio.ScanLines` and the
default buffer: at end of input scanning stops cleanly; a newline found
within the first `maxScanTokenSize` buffered bytes yields the bytes before
it (trailing CR dropped) and the input after it; with no newline there,
remaining input shorter than the buffer limit is the final token (trailing
CR dropped), and otherwise the buffer fills without a token, so `Scan`
fails and `Err` reports `ErrTooLong` (as with readers such as
`strings.Reader` and `os.File` that report end-of-input on the read after
the last byte). -/
def nextToken (s : List Nat) : ScanResult :=
  if s.isEmpty then .eof
  else
    match (s.take maxScanTokenSize).findIdx? (fun b => b == 10) with
    | some idx => .token (dropCR (s.take idx)) (s.drop (idx + 1))
    | none =>
        if s.length < maxScanTokenSize then .token (dropCR s) []
        else .tooLong

def tokensF : Nat → List Nat → List (List Nat) × Option String
  | 0, _ => ([], none)
  | fuel + 1, s =>
      match nextToken s with
      | .eof => ([], none)
      | .tooLong => ([], some scanErrTooLong)
      | .token tok rest =>
          let r := tokensF fuel rest
          (tok :: r.1, r.2)

/-- The tokens a `bufio.Scanner` produces from `s`, paired with its
terminal condition: `none` on clean end of input, the `ErrTooLong` message
when a line overflows the token bound (`s.Err()` after the scan loop). -/
def tokens (s : List Nat) : List (List Nat) × Option String :=
  tokensF (s.length + 1) s

/-- `strings.Split(s, "\n")`: on `[]` this is `[[]]`, never empty. -/
def splitNL : List Nat → List (List Nat)
  | [] => [[]]
  | b :: rest =>
      match splitNL rest with
      | s :: ss => if b == 10 then [] :: s :: ss else (b :: s) :: ss
      | [] => [[]]

/-! ## Options -/

/-- The `options` record (part_000) / `Opts` record (part_008).  Pattern
files are modelled by their byte contents.  Reserved fields that no option
function touches are kept for fidelity. -/
structure Opts where
  e : List (List Nat) := []
  f : List (List Nat) := []
  i : Bool := false
  v : Bool := false
  w : Bool := false
  x : Bool := false
  z : Bool := false
  m : Int := 0
  b : Bool := false
  n : Bool := false
  lineBuffered : Bool := false
  H : Bool := false
  h : Bool := false
  label : List Nat := []
deriving DecidableEq, Repr

/-- Reification of the six exported option functions (`Option func(*options)`
values); `Option` itself is taken in Lean, hence the name. -/
inductive GrepOption where
  | withRegexps (patterns : List (List Nat))
  | withFiles (files : List (List Nat))
  | withIgnoreCase
  | withInvertMatch
  | withWordRegexp
  | withLineRegexp
deriving DecidableEq, Repr

/-- The body of each option closure, exactly as in the source. -/
def applyOption (o : Opts) : GrepOption → Opts
  | .withRegexps ps => { o with e := o.e ++ ps }
  | .withFiles fs => { o with f := o.f ++ fs }
  | .withIgnoreCase => { o with i := true }
  | .withInvertMatch => { o with v := true }
  | .withWordRegexp => if o.x then o else { o with w := true }
  | .withLineRegexp => { o with x := true, w := false }

/-- `New` folds the option functions over a zero-valued record. -/
def applyOptions (l : List GrepOption) : Opts :=
  l.foldl applyOption {}

structure Grep where
  pattern : List Nat
  opts : Opts
deriving DecidableEq, Repr

/-- `grep.New(pattern, opts...)`. -/
def Grep.new (pattern : List Nat) (l : List GrepOption) : Grep :=
  ⟨pattern, applyOptions l⟩

/-! ## Matching (part_000 `matcher.Match`, part_008 `matcher.match`) -/

/-- One case of the `switch` in the word-regexp branch, with the source's
short-circuit `&&` order; out-of-range byte reads are modelled by `getD`
(shown safe below). -/
def qualifiesWord (line : List Nat) (sp : Nat × Nat) : Bool :=
  if sp.1 == 0 && sp.2 == line.length then true
  else if sp.1 == 0 && !(isWordChar (line.getD sp.2 0)) then true
  else if sp.2 == line.length && !(isWordChar (line.getD (sp.1 - 1) 0)) then true
  else false

/-- part_008 `matcher.match`, which is also the inner `matches` closure of
part_000 `matcher.Match`: the raw boundary-filtered result, before any
invert transform. -/
def matchRaw (re : Regex) (o : Opts) (line : List Nat) : Bool :=
  if !(rMatch re line) then false
  else if o.x then
    (if o.i then eqFold (rFind re line) line else rFind re line == line)
  else if o.w then (findAllIndex re line).any (qualifiesWord line)
  else true

/-- part_000 `matcher.Match`: the raw result xor-ed with invert-match,
per matcher. -/
def matcherMatch (re : Regex) (o : Opts) (line : List Nat) : Bool :=
  matchRaw re o line != o.v

/-! ## Pattern compilation -/

/-- part_000 `appendRegex` body: the source computes `xflags` (Perl, plus
FoldCase when `opts.i` is set) but then calls
`syntax.Parse(expr, syntax.Perl|syntax.FoldCase)`, so the fold flag passed
to the parser is always set, whatever `opts.i` is. -/
def appendRegex (o : Opts) (expr : List Nat) : Except String Regex :=
  let _xflags := o.i
  parsePattern true expr

/-- part_008 `addExpr` body: here `syntax.Parse(expr, xflags)` receives the
computed flags, so folding is gated on `opts.i`. -/
def addExpr (o : Opts) (expr : List Nat) : Except String Regex :=
  parsePattern o.i expr

/-- part_000 `(*Grep).matchers`: inline pattern (split on newlines) only
when both `-e` and `-f` are unset, then `-e` patterns (split on newlines),
then the scanned lines of each pattern file; the first compile error
aborts, and a pattern-file line overflowing the scanner bound surfaces as
that file's `s.Err()` after its compiled lines. -/
def Grep.matchers (g : Grep) : Except String (List Regex) := do
  let inline ←
    if g.opts.e.isEmpty && g.opts.f.isEmpty then
      (splitNL g.pattern).mapM (appendRegex g.opts)
    else pure []
  let fromE ← (g.opts.e.flatMap splitNL).mapM (appendRegex g.opts)
  let fromF ← g.opts.f.mapM (fun file => do
    let scanned := tokens file
    let rs ← scanned.1.mapM (appendRegex g.opts)
    match scanned.2 with
    | some err => Except.error err
    | none => pure rs)
  pure (inline ++ fromE ++ fromF.flatMap id)

/-! ## Streaming (part_000 `(*Grep).Exec`) -/

/-- The scan loop of the `Exec` goroutine: for each token, the first
matcher whose `Match` is true causes `line ++ "\n"` to be written
(`for _, m := range matchers { if m.Match(line) { write; break } }`); when
the loop ends the pipe is closed with `s.Err()`, so the stream delivers
the bytes written so far and then that terminal condition. -/
def execLoopF (ms : List Regex) (o : Opts) : Nat → List Nat → List Nat × Option String
  | 0, _ => ([], none)
  | fuel + 1, input =>
      match nextToken input with
      | .eof => ([], none)
      | .tooLong => ([], some scanErrTooLong)
      | .token line rest =>
          let written :=
            if ms.any (fun re => matcherMatch re o line) then line ++ [10] else []
          let r := execLoopF ms o fuel rest
          (written ++ r.1, r.2)

/-- part_000 `(*Grep).Exec` as observed through the pipe's reader: the
bytes delivered, paired with the terminal condition (`none` a clean close,
`some` the error the pipe was closed with).  A compile error closes the
pipe before any input is read: zero bytes, that error. -/
def Grep.Exec (g : Grep) (input : List Nat) : List Nat × Option String :=
  match g.matchers with
  | .error err => ([], some err)
  | .ok ms => execLoopF ms g.opts (input.length + 1) input

/-! ## part_008: `matchAll` and `(*Grep).Read` -/

/-- part_008 `matchAll.Match`: OR (short-circuit) of the raw per-matcher
results, then one xor with invert-match. -/
def matchAllMatch (ms : List Regex) (o : Opts) (line : List Nat) : Bool :=
  (ms.any (fun re => matchRaw re o line)) != o.v

/-- part_008 `(*Grep).allMatcher`, using `addExpr` (fold gated on `i`). -/
def Grep.allMatcher (g : Grep) : Except String (List Regex) := do
  let inline ←
    if g.opts.e.isEmpty && g.opts.f.isEmpty then
      (splitNL g.pattern).mapM (addExpr g.opts)
    else pure []
  let fromE ← (g.opts.e.flatMap splitNL).mapM (addExpr g.opts)
  let fromF ← g.opts.f.mapM (fun file => do
    let scanned := tokens file
    let rs ← scanned.1.mapM (addExpr g.opts)
    match scanned.2 with
    | some err => Except.error err
    | none => pure rs)
  pure (inline ++ fromE ++ fromF.flatMap id)

/-- The scan loop of the part_008 `Read` goroutine: one composite `Match`
per line, the pipe closed with `s.Err()` when the loop ends. -/
def readLoopF (ms : List Regex) (o : Opts) : Nat → List Nat → List Nat × Option String
  | 0, _ => ([], none)
  | fuel + 1, input =>
      match nextToken input with
      | .eof => ([], none)
      | .tooLong => ([], some scanErrTooLong)
      | .token line rest =>
          let written := if matchAllMatch ms o line then line ++ [10] else []
          let r := readLoopF ms o fuel rest
          (written ++ r.1, r.2)

/-- part_008 `(*Grep).Read`, observed through the pipe's reader. -/
def Grep.Read (g : Grep) (input : List Nat) : List Nat × Option String :=
  match g.allMatcher with
  | .error err => ([], some err)
  | .ok ms => readLoopF ms g.opts (input.length + 1) input

/-- Byte list of an ASCII string, for readable concrete inputs. -/
def strB (s : String) : List Nat :=
  s.data.map Char.toNat

/-! ## Claim-side formulations -/

/-- The claim's notion of input lines: maximal byte runs up to (not
including) a newline, with a final unterminated run still counted and a
terminating newline producing no extra empty line.  (No carriage-return
handling: this is the formulation under test, not the scanner.) -/
def linesUpToNewline (input : List Nat) : List (List Nat) :=
  let segs := splitNL input
  if segs.getLast? == some [] then segs.dropLast else segs

/-- The spec's anchored formulation of line-regexp: the pattern, anchored
at both ends, matches the entire line — some match starting at offset 0
ends exactly at the line's end. -/
def anchoredWholeLine (re : Regex) (line : List Nat) : Bool :=
  (ends re line 0).contains line.length

/-- The claim's whole-word condition on a span: it covers the entire line,
or starts at offset 0 with a non-word-constituent byte just after it, or
ends at the line's end with a non-word-constituent byte just before it. -/
def wordSpanOK (line : List Nat) (sp : Nat × Nat) : Prop :=
  (sp.1 = 0 ∧ sp.2 = line.length)
  ∨ (sp.1 = 0 ∧ sp.2 < line.length ∧ isWordChar (line.getD sp.2 0) = false)
  ∨ (sp.2 = line.length ∧ 0 < sp.1 ∧ isWordChar (line.getD (sp.1 - 1) 0) = false)

/-- The word-regexp switch with every byte read bounds-checked: `none`
models an index-out-of-range panic (including Go's `line[-1]` when
`begin == 0`), with the source's evaluation order and `&&` short-circuits. -/
def qualifiesWordChecked (line : List Nat) (sp : Nat × Nat) : Option Bool :=
  if sp.1 == 0 && sp.2 == line.length then some true
  else
    let case2 : Option Bool :=
      if sp.1 == 0 then (line.get? sp.2).map (fun b => !(isWordChar b)) else some false
    match case2 with
    | none => none
    | some true => some true
    | some false =>
        if sp.2 == line.length then
          if sp.1 == 0 then none
          else
            match line.get? (sp.1 - 1) with
            | none => none
            | some b => some (!(isWordChar b))
        else some false

/-- The word-regexp loop over all spans with bounds-checked byte reads,
returning on the first qualifying span as the source does. -/
def wordAnyChecked (line : List Nat) : List (Nat × Nat) → Option Bool
  | [] => some false
  | sp :: rest =>
      match qualifiesWordChecked line sp with
      | none => none
      | some true => some true
      | some false => wordAnyChecked line rest

end Usrbin

deriving instance DecidableEq for Except

namespace Usrbin

/-! ## General lemmas -/

/-- The `Exec` scan loop writes, per scanner token in order, the token plus
a newline when some matcher's `Match` is true and nothing otherwise, and
ends with the scanner's terminal condition. -/
theorem execLoopF_eq_tokensF (ms : List Regex) (o : Opts) :
    ∀ fuel input, execLoopF ms o fuel input
      = ((tokensF fuel input).1.flatMap
          (fun l => if ms.any (fun re => matcherMatch re o l) then l ++ [10] else []),
         (tokensF fuel input).2) := by
  intro fuel
  induction fuel with
  | zero => intro input; rfl
  | succ n ih =>
      intro input
      cases htr : nextToken input with
      | eof => simp [execLoopF, tokensF, htr]
      | tooLong => simp [execLoopF, tokensF, htr]
      | token tok rest => simp [execLoopF, tokensF, htr, ih rest]

/-- Each option function preserves the exclusion of `w` and `x`. -/
theorem applyOption_preserves_wx (o : Opts) (g : GrepOption)
    (h : (o.w && o.x) = false) :
    ((applyOption o g).w && (applyOption o g).x) = false := by
  cases g with
  | withWordRegexp =>
      by_cases hx : o.x
      · simpa [applyOption, hx] using h
      · simp [applyOption, hx]
  | withLineRegexp => simp [applyOption]
  | withRegexps ps => simpa [applyOption] using h
  | withFiles fs => simpa [applyOption] using h
  | withIgnoreCase => simpa [applyOption] using h
  | withInvertMatch => simpa [applyOption] using h

theorem foldl_applyOption_wx :
    ∀ (l : List GrepOption) (o : Opts), (o.w && o.x) = false →
      ((l.foldl applyOption o).w && (l.foldl applyOption o).x) = false
  | [], _, h => h
  | g :: l, o, h => foldl_applyOption_wx l _ (applyOption_preserves_wx o g h)

/-! ## Claim theorems -/

/-- C8: after applying any sequence of option functions to a fresh options
record, word-regexp and line-regexp are never both set; `WithLineRegexp`
sets `x` and clears `w`, and `WithWordRegexp` leaves any record with `x`
already set unchanged. -/
theorem word_line_regexp_mutually_exclusive :
    (∀ l : List GrepOption, ((applyOptions l).w && (applyOptions l).x) = false)
    ∧ (∀ o : Opts, (applyOption o .withLineRegexp).x = true
        ∧ (applyOption o .withLineRegexp).w = false)
    ∧ (∀ o : Opts, applyOption { o with x := true } .withWordRegexp = { o with x := true }) := by
  refine ⟨fun l => foldl_applyOption_wx l {} rfl, fun o => ⟨rfl, rfl⟩, fun o => ?_⟩
  simp [applyOption]

/-- C6: when pattern compilation fails, `Exec` returns the stream already
closed with that compile error, independent of the input: zero output
bytes, no line ever read. -/
theorem compile_error_aborts_exec (g : Grep) (input : List Nat) (err : String)
    (h : g.matchers = .error err) : g.Exec input = ([], some err) := by
  simp [Grep.Exec, h]

theorem compile_error_aborts_exec_witness :
    (Grep.new (strB "(") []).matchers = .error ("missing closing parenthesis")
    ∧ (Grep.new (strB "(") []).Exec (strB "foo\nbar")
        = ([], some ("missing closing parenthesis")) :=
  ⟨by decide, compile_error_aborts_exec _ _ _ (by decide)⟩

/-- C1 (code bug): with two patterns and invert-match set, part_000 applies
the xor inside each matcher and ORs the inverted results, so input line
"foo" — which raw-matches the first pattern — is still emitted; the
exclusive-or of the aggregate OR with the invert flag (the claim, and
part_008's `matchAll.Match`) selects nothing on this input. -/
theorem exec_applies_invert_per_matcher :
    (Grep.new (strB "foo\nbar") [.withInvertMatch]).Exec (strB "foo") = (strB "foo\n", none)
    ∧ ((Grep.new (strB "foo\nbar") [.withInvertMatch]).matchers).toOption.map
        (fun ms => matchAllMatch ms (applyOptions [.withInvertMatch]) (strB "foo"))
      = some false
    ∧ (Grep.new (strB "foo\nbar") [.withInvertMatch]).Read (strB "foo") = ([], none) := by
  decide

/-- C2 (code bug): part_000's `appendRegex` parses every pattern with
`syntax.Perl|syntax.FoldCase` (its computed `xflags` is unused), so pattern
"FOO" without ignore-case still matches line "foo" through the whole
pipeline; the flag-gated compilation (part_008's `addExpr`, and the claim)
does not match. -/
theorem compile_always_folds_case :
    (Grep.new (strB "FOO") []).Exec (strB "foo\nbar") = (strB "foo\n", none)
    ∧ (addExpr {} (strB "FOO")).toOption.map (fun re => rMatch re (strB "foo")) = some false
    ∧ (appendRegex {} (strB "FOO")).toOption.map (fun re => rMatch re (strB "foo")) = some true := by
  decide

/-- C3 (code bug): an empty pattern file yields zero matchers; part_000's
`Exec` loop then emits nothing even with invert-match set (the inner loop
over matchers never runs), while the composite matcher of part_008 (and the
claim) selects every line. -/
theorem empty_pattern_set_with_invert_emits_nothing :
    (Grep.new [] [.withFiles [[]], .withInvertMatch]).matchers = .ok []
    ∧ (Grep.new [] [.withFiles [[]], .withInvertMatch]).Exec (strB "a") = ([], none)
    ∧ (Grep.new [] [.withFiles [[]], .withInvertMatch]).Read (strB "a") = (strB "a\n", none) := by
  decide

/-- The empty pattern compiles to `eps`, whose `Match` is true on every
line under default options. -/
theorem matcherMatch_eps (l : List Nat) :
    matcherMatch .eps (applyOptions []) l = true := rfl

/-- The newline test never fires on a run of byte 97, from any start
index. -/
theorem findIdx?_nl_replicate (n i : Nat) :
    List.findIdx? (fun b => b == 10) (List.replicate n 97) i = none := by
  induction n generalizing i with
  | zero => rfl
  | succ m ih =>
      rw [List.replicate_succ]
      simp [List.findIdx?, ih]

/-- A newline-free line one byte over the scanner bound overflows the
buffer: `Scan` fails with `ErrTooLong`. -/
theorem nextToken_overlong :
    nextToken (List.replicate (maxScanTokenSize + 1) 97) = .tooLong := by
  have hne : (List.replicate (maxScanTokenSize + 1) 97).isEmpty = false := by
    rw [List.replicate_succ]
    rfl
  have hidx : ((List.replicate (maxScanTokenSize + 1) 97).take maxScanTokenSize).findIdx?
      (fun b => b == 10) = none := by
    rw [List.take_replicate]
    exact findIdx?_nl_replicate _ 0
  have hlen : ¬ (List.replicate (maxScanTokenSize + 1) 97).length < maxScanTokenSize := by
    rw [List.length_replicate]
    omega
  simp [nextToken, hne, hidx, hlen]

/-- `strings.Split` on a newline-free run is that single segment. -/
theorem splitNL_replicate (n : Nat) :
    splitNL (List.replicate n 97) = [List.replicate n 97] := by
  induction n with
  | zero => rfl
  | succ m ih =>
      rw [List.replicate_succ]
      simp [splitNL, ih, List.replicate_succ]

/-- As soon as a scan step overflows, the loop stops and the pipe is
closed with ErrTooLong; nothing more is written. -/
theorem execLoopF_tooLong (ms : List Regex) (o : Opts) (fuel : Nat) (input : List Nat)
    (h : nextToken input = .tooLong) :
    execLoopF ms o (fuel + 1) input = ([], some scanErrTooLong) := by
  simp only [execLoopF, h]

/-- The claim-side lines of a newline-free nonempty run: that single run. -/
theorem linesUpToNewline_replicate (n : Nat) :
    linesUpToNewline (List.replicate (n + 1) 97) = [List.replicate (n + 1) 97] := by
  have hlast : (([List.replicate (n + 1) 97].getLast?) == some ([] : List Nat)) = false := by
    rw [List.replicate_succ]
    rfl
  simp only [linesUpToNewline, splitNL_replicate, hlast, Bool.false_eq_true, if_false]

/-- C9 counterexample: the empty inline pattern matches everything, yet on
an input that is a single newline-free line one byte over the scanner's
64 KiB token bound, Exec emits nothing and closes the stream with
ErrTooLong — the line is not emitted, so not every input line is emitted. -/
theorem empty_inline_overlong_line_cex :
    (Grep.new [] []).Exec (List.replicate (maxScanTokenSize + 1) 97)
      = ([], some scanErrTooLong)
    ∧ ((Grep.new [] []).Exec (List.replicate (maxScanTokenSize + 1) 97)).1
        ≠ (linesUpToNewline (List.replicate (maxScanTokenSize + 1) 97)).flatMap
            (fun l => l ++ [10]) := by
  have hm : (Grep.new [] []).matchers = Except.ok [Regex.eps] := rfl
  have hexec : (Grep.new [] []).Exec (List.replicate (maxScanTokenSize + 1) 97)
      = ([], some scanErrTooLong) := by
    have h1 : (Grep.new [] []).Exec (List.replicate (maxScanTokenSize + 1) 97)
        = execLoopF [Regex.eps] (Grep.new [] []).opts
            ((List.replicate (maxScanTokenSize + 1) 97).length + 1)
            (List.replicate (maxScanTokenSize + 1) 97) := by
      simp only [Grep.Exec, hm]
    rw [h1]
    exact execLoopF_tooLong _ _ _ _ nextToken_overlong
  refine ⟨hexec, ?_⟩
  rw [hexec]
  rw [linesUpToNewline_replicate]
  intro hco
  have hlen := congrArg List.length hco
  rw [List.length_nil, List.flatMap_cons, List.flatMap_nil, List.append_nil,
    List.length_append, List.length_replicate] at hlen
  omega

/-- C9 (amended): with no explicit pattern list and no pattern files, the
empty inline pattern still yields exactly one compiled pattern — the empty
regular expression, so the inline empty string is not an empty pattern
set — and with invert-match unset every scanned input line (every line
within the scanner's 64 KiB token bound) is emitted newline-terminated,
with the scanner's terminal condition passed through. -/
theorem empty_inline_pattern_matches_every_scanned_line (input : List Nat) :
    (Grep.new [] []).matchers = .ok [Regex.eps]
    ∧ (Grep.new [] []).Exec input
        = ((tokens input).1.flatMap (fun l => l ++ [10]), (tokens input).2) := by
  refine ⟨rfl, ?_⟩
  show execLoopF [Regex.eps] (applyOptions []) (input.length + 1) input = _
  rw [execLoopF_eq_tokensF]
  simp [tokens, matcherMatch_eps]

/-- C7 (amended): the output of `Exec` is exactly the concatenation, in
input order, of each matched scanner token followed by one newline byte —
tokens being the maximal runs up to a newline within the scanner's 64 KiB
token bound, with one trailing carriage return stripped and a final
unterminated run included — followed by the scanner's terminal condition
(clean close, or ErrTooLong when a line overflows the bound). -/
theorem exec_output_is_filtered_tokens (g : Grep) (ms : List Regex) (input : List Nat)
    (h : g.matchers = .ok ms) :
    g.Exec input
      = ((tokens input).1.flatMap
          (fun l => if ms.any (fun re => matcherMatch re g.opts l) then l ++ [10] else []),
         (tokens input).2) := by
  simp [Grep.Exec, h, tokens, execLoopF_eq_tokensF]

theorem exec_output_is_filtered_tokens_witness :
    (Grep.new (strB "a") []).matchers = .ok [Regex.cat (.chr 97 true) .eps]
    ∧ (Grep.new (strB "a") []).Exec (strB "a\nb")
        = ((tokens (strB "a\nb")).1.flatMap
            (fun l => if [Regex.cat (.chr 97 true) .eps].any
                (fun re => matcherMatch re (Grep.new (strB "a") []).opts l)
              then l ++ [10] else []),
           (tokens (strB "a\nb")).2) :=
  ⟨by decide, exec_output_is_filtered_tokens _ _ _ (by decide)⟩

/-- C7 counterexample: on input "a\r\n" the engine matches and emits the
CR-stripped token "a" (output "a\n"), while the claim's lines — maximal
byte runs up to a newline — would make the output "a\r\n". -/
theorem output_lines_crlf_cex :
    (Grep.new [] []).Exec (strB "a\r\n") = (strB "a\n", none)
    ∧ (linesUpToNewline (strB "a\r\n")).flatMap
        (fun l => if [Regex.eps].any (fun re => matcherMatch re (applyOptions []) l)
          then l ++ [10] else [])
      = strB "a\r\n"
    ∧ (strB "a\n" : List Nat) ≠ strB "a\r\n" := by decide

/-- Match ends lie between the start offset and the input length. -/
theorem ends_bounds (r : Regex) :
    ∀ (s : List Nat) (i : Nat), i ≤ s.length → ∀ e ∈ ends r s i, i ≤ e ∧ e ≤ s.length := by
  induction r with
  | eps =>
      intro s i hi e he
      simp [ends] at he
      omega
  | chr c f =>
      intro s i hi e he
      simp only [ends] at he
      split at he
      · rename_i b hg
        split at he
        · simp at he
          have hlt : i < s.length := (List.get?_eq_some.mp hg).1
          omega
        · simp at he
      · simp at he
  | cat a b iha ihb =>
      intro s i hi e he
      simp only [ends] at he
      rw [List.mem_flatMap] at he
      obtain ⟨j, hj, hej⟩ := he
      obtain ⟨h1, h2⟩ := iha s i hi j hj
      obtain ⟨h3, h4⟩ := ihb s j h2 e hej
      omega
  | alt a b iha ihb =>
      intro s i hi e he
      simp only [ends] at he
      rcases List.mem_append.mp he with h | h
      · exact iha s i hi e h
      · exact ihb s i hi e h

/-- A successful fuelled search returns a span at or after the query
offset, starting within bounds, whose end is a true match end. -/
theorem findFromF_some (r : Regex) (s : List Nat) :
    ∀ (fuel i0 i e : Nat), i0 ≤ s.length → findFromF r s fuel i0 = some (i, e) →
      i0 ≤ i ∧ i ≤ s.length ∧ e ∈ ends r s i := by
  intro fuel
  induction fuel with
  | zero =>
      intro i0 i e _ h
      exact absurd h (by simp [findFromF])
  | succ n ih =>
      intro i0 i e hi0 h
      simp only [findFromF] at h
      cases hh : (ends r s i0).head? with
      | some e0 =>
          rw [hh] at h
          have h1 : i0 = i ∧ e0 = e := by
            have := Option.some.inj h
            exact ⟨congrArg Prod.fst this, congrArg Prod.snd this⟩
          obtain ⟨rfl, rfl⟩ := h1
          exact ⟨le_refl _, hi0, List.mem_of_mem_head? (by simp [hh])⟩
      | none =>
          rw [hh] at h
          by_cases hlt : i0 < s.length
          · rw [if_pos hlt] at h
            obtain ⟨h1, h2, h3⟩ := ih (i0 + 1) i e (by omega) h
            exact ⟨by omega, h2, h3⟩
          · rw [if_neg hlt] at h
            exact absurd h (by simp)

/-- All spans produced by the fuelled FindAll loop are in bounds. -/
theorem findAllF_wf (r : Regex) (s : List Nat) :
    ∀ (fuel p : Nat) (prev : Option Nat), ∀ sp ∈ findAllF r s fuel p prev,
      sp.1 ≤ sp.2 ∧ sp.2 ≤ s.length := by
  intro fuel
  induction fuel with
  | zero =>
      intro p prev sp hsp
      simp [findAllF] at hsp
  | succ n ih =>
      intro p prev sp hsp
      simp only [findAllF] at hsp
      split at hsp
      · simp at hsp
      · rename_i hp
        split at hsp
        · rename_i i e hf
          have hb := findFromF_some r s (s.length + 1) p i e (by omega) hf
          have he := ends_bounds r s i hb.2.1 e hb.2.2
          split at hsp
          · rcases List.mem_append.mp hsp with hmem | hmem
            · rename_i hie
              split at hmem
              · simp at hmem
              · simp at hmem
                subst hmem
                exact ⟨he.1, he.2⟩
            · exact ih _ _ sp hmem
          · rcases List.mem_cons.mp hsp with hmem | hmem
            · subst hmem
              exact ⟨he.1, he.2⟩
            · exact ih _ _ sp hmem
        · simp at hsp

/-- All spans of `findAllIndex` are in bounds. -/
theorem findAllIndex_wf (r : Regex) (s : List Nat) :
    ∀ sp ∈ findAllIndex r s, sp.1 ≤ sp.2 ∧ sp.2 ≤ s.length :=
  fun sp hsp => findAllF_wf r s (s.length + 2) 0 none sp hsp

/-- C4 counterexample: with line-regexp set, pattern foo|foobar on line
foobar is rejected by the code's first-span test (the leftmost-first match
is "foo"), while the anchored whole-line formulation accepts — so the two
formulations do not accept the same lines. -/
theorem line_regexp_first_span_vs_anchored_cex :
    (parsePattern true (strB "foo|foobar")).toOption.map
        (fun re => (matchRaw re (applyOptions [.withLineRegexp]) (strB "foobar"),
                    anchoredWholeLine re (strB "foobar")))
      = some (false, true) := by decide

/-- C4 (amended): with line-regexp set, the code's acceptance — the first
match span byte-identical (fold-equal under ignore-case) to the whole
line — implies that the pattern anchored at both ends matches the whole
line; the converse fails (see the counterexample). -/
theorem line_regexp_accept_implies_anchored (re : Regex) (o : Opts) (line : List Nat)
    (hx : o.x = true) (h : matchRaw re o line = true) :
    anchoredWholeLine re line = true := by
  by_cases hm : rMatch re line = true
  · simp only [matchRaw, hm, hx, Bool.not_true, Bool.false_eq_true, if_false, if_true] at h
    have hsp : ∃ p, findSpan re line = some p := by
      rw [rMatch, Option.isSome_iff_exists] at hm
      exact hm
    obtain ⟨⟨i, e⟩, hspan⟩ := hsp
    have hflen : (rFind re line).length = line.length := by
      by_cases hi : o.i = true
      · rw [if_pos hi] at h
        have hmap := eq_of_beq h
        have := congrArg List.length hmap
        simpa using this
      · rw [if_neg hi] at h
        rw [eq_of_beq h]
    have hfind : rFind re line = sliceBytes line i e := by
      rw [rFind, hspan]
    have hb := findFromF_some re line (line.length + 1) 0 i e (by omega) hspan
    have he := ends_bounds re line i hb.2.1 e hb.2.2
    have hslice : (sliceBytes line i e).length = min (e - i) (line.length - i) := by
      simp [sliceBytes]
    have hie : i = 0 ∧ e = line.length := by
      rw [hfind, hslice] at hflen
      omega
    obtain ⟨rfl, rfl⟩ := hie
    have hmem : line.length ∈ ends re line 0 := hb.2.2
    simpa [anchoredWholeLine, List.contains] using List.elem_eq_true_of_mem hmem
  · simp [matchRaw, hm] at h

theorem line_regexp_accept_implies_anchored_witness :
    matchRaw (.cat (.chr 102 true) (.cat (.chr 111 true) (.cat (.chr 111 true) .eps)))
        (applyOptions [.withLineRegexp]) (strB "foo") = true
    ∧ anchoredWholeLine
        (.cat (.chr 102 true) (.cat (.chr 111 true) (.cat (.chr 111 true) .eps)))
        (strB "foo") = true :=
  ⟨by decide,
   line_regexp_accept_implies_anchored _ (applyOptions [.withLineRegexp]) _
     (by decide) (by decide)⟩

/-- On an in-bounds span the source's switch decides exactly the claim's
three-way whole-word condition. -/
theorem qualifiesWord_iff_spec (line : List Nat) (sp : Nat × Nat)
    (h1 : sp.1 ≤ sp.2) (h2 : sp.2 ≤ line.length) :
    qualifiesWord line sp = true ↔ wordSpanOK line sp := by
  obtain ⟨b, e⟩ := sp
  simp only at h1 h2
  by_cases hb : b = 0 <;> by_cases he : e = line.length
  · simp [qualifiesWord, wordSpanOK, hb, he]
  · have hlt : e < line.length := by omega
    by_cases hw : isWordChar (line.getD e 0) = true
    · simp [qualifiesWord, wordSpanOK, hb, he, hlt, hw]
    · simp [qualifiesWord, wordSpanOK, hb, he, hlt, hw]
  · have hpos : 0 < b := Nat.pos_of_ne_zero hb
    by_cases hw : isWordChar (line.getD (b - 1) 0) = true
    · simp [qualifiesWord, wordSpanOK, hb, he, hpos, hw]
    · simp [qualifiesWord, wordSpanOK, hb, he, hpos, hw]
  · simp [qualifiesWord, wordSpanOK, hb, he]

/-- C5: with word-regexp set (line-regexp unset) and at least one raw
match in the line, the filter accepts iff some enumerated non-overlapping
match span covers the whole line, or abuts the line start with a
non-word-constituent byte after it, or abuts the line end with a
non-word-constituent byte before it — any span may qualify, not only the
first. -/
theorem word_regexp_accepts_iff_some_span_qualifies
    (re : Regex) (o : Opts) (line : List Nat)
    (hm : rMatch re line = true) (hx : o.x = false) (hw : o.w = true) :
    (matchRaw re o line = true ↔ ∃ sp ∈ findAllIndex re line, wordSpanOK line sp) := by
  simp only [matchRaw, hm, hx, hw, Bool.not_true, Bool.false_eq_true, if_false, if_true]
  rw [List.any_eq_true]
  constructor
  · rintro ⟨sp, hsp, hq⟩
    exact ⟨sp, hsp,
      (qualifiesWord_iff_spec line sp (findAllIndex_wf re line sp hsp).1
        (findAllIndex_wf re line sp hsp).2).mp hq⟩
  · rintro ⟨sp, hsp, hq⟩
    exact ⟨sp, hsp,
      (qualifiesWord_iff_spec line sp (findAllIndex_wf re line sp hsp).1
        (findAllIndex_wf re line sp hsp).2).mpr hq⟩

theorem word_regexp_accepts_iff_some_span_qualifies_witness :
    matchRaw (.cat (.chr 102 true) (.cat (.chr 111 true) (.cat (.chr 111 true) .eps)))
        (applyOptions [.withWordRegexp]) (strB "baz foo") = true
    ∧ ∃ sp ∈ findAllIndex
        (.cat (.chr 102 true) (.cat (.chr 111 true) (.cat (.chr 111 true) .eps)))
        (strB "baz foo"), wordSpanOK (strB "baz foo") sp :=
  ⟨by decide,
   (word_regexp_accepts_iff_some_span_qualifies _ (applyOptions [.withWordRegexp]) _
      (by decide) (by decide) (by decide)).mp (by decide)⟩

/-- On an in-bounds span the bounds-checked switch never reports an
out-of-range read and agrees with the unchecked switch. -/
theorem qualifiesWordChecked_eq (line : List Nat) (sp : Nat × Nat)
    (h1 : sp.1 ≤ sp.2) (h2 : sp.2 ≤ line.length) :
    qualifiesWordChecked line sp = some (qualifiesWord line sp) := by
  obtain ⟨b, e⟩ := sp
  simp only at h1 h2
  by_cases hb : b = 0 <;> by_cases he : e = line.length
  · simp [qualifiesWordChecked, qualifiesWord, hb, he]
  · have hlt : e < line.length := by omega
    obtain ⟨v, hv⟩ : ∃ v, line.get? e = some v := by
      cases hq : line.get? e with
      | none =>
          have := List.get?_eq_none.mp hq
          omega
      | some v => exact ⟨v, rfl⟩
    have hv' : getElem? line e = some v := by
      rw [← List.get?_eq_getElem?]
      exact hv
    have hgd : line.getD e 0 = v := by
      rw [List.getD_eq_getD_get? line 0 e, hv]
      rfl
    by_cases hw : isWordChar v = true
    · simp [qualifiesWordChecked, qualifiesWord, hb, he, hv, hv', hgd, hw]
    · simp [qualifiesWordChecked, qualifiesWord, hb, he, hv, hv', hgd, hw]
  · have hpos : 0 < b := Nat.pos_of_ne_zero hb
    have hb1 : b - 1 < line.length := by omega
    obtain ⟨v, hv⟩ : ∃ v, line.get? (b - 1) = some v := by
      cases hq : line.get? (b - 1) with
      | none =>
          have := List.get?_eq_none.mp hq
          omega
      | some v => exact ⟨v, rfl⟩
    have hv' : getElem? line (b - 1) = some v := by
      rw [← List.get?_eq_getElem?]
      exact hv
    have hgd : line.getD (b - 1) 0 = v := by
      rw [List.getD_eq_getD_get? line 0 (b - 1), hv]
      rfl
    by_cases hw : isWordChar v = true
    · simp [qualifiesWordChecked, qualifiesWord, hb, he, hv, hv', hgd, hw]
    · simp [qualifiesWordChecked, qualifiesWord, hb, he, hv, hv', hgd, hw]
  · simp [qualifiesWordChecked, qualifiesWord, hb, he]

/-- C10: in the word-regexp branch every byte access is in bounds: on any
line and any set of in-bounds spans (as all spans produced by
FindAllIndex are), the loop with bounds-checked reads never hits an
out-of-range access and computes exactly the unchecked loop's answer, so
the branch is total. -/
theorem word_branch_indexing_safe (line : List Nat) (spans : List (Nat × Nat))
    (h : ∀ sp ∈ spans, sp.1 ≤ sp.2 ∧ sp.2 ≤ line.length) :
    wordAnyChecked line spans = some (spans.any (qualifiesWord line)) := by
  induction spans with
  | nil => rfl
  | cons sp rest ih =>
      have hsp := h sp (List.mem_cons_self sp rest)
      rw [wordAnyChecked, qualifiesWordChecked_eq line sp hsp.1 hsp.2]
      by_cases hq : qualifiesWord line sp = true
      · simp [hq]
      · have hrest := ih (fun s hs => h s (List.mem_cons_of_mem sp hs))
        simp [hq, hrest]

theorem word_branch_indexing_safe_witness :
    wordAnyChecked (strB "x-foo") [(2, 5)] = some true :=
  (word_branch_indexing_safe (strB "x-foo") [(2, 5)] (by decide)).trans (by decide)

end Usrbin
